import Mathlib

/-!
Shallow embedding of the frame feature pipeline of the
frames-extractor-backend repository.

JavaScript numbers are modelled as rationals; the byte buffer returned by
the image decoder is modelled as a list of naturals.  Effects of external
collaborators (the ffmpeg child process, the sharp decoder, the remote
Qdrant index) are modelled as explicit oracle arguments describing the
outcome of each external call, so every function below is a pure,
executable translation of the corresponding source function.
-/

namespace FrameBackend

/-- `FrameData` from src/services/videoService.ts: frame metadata plus the
optional feature vector. -/
structure FrameData where
  id : String
  videoId : String
  timestamp : ℚ
  filename : String
  path : String
  features : Option (List ℚ) := none
deriving Repr, DecidableEq

/-- Error outcomes of `VideoService.extractFrames`.  `ffmpegError` is the
rejection path of the promise (the external process failed).
`emptyResult` is the `EmptyResultError` named by the design notes; it is
declared here so that statements about it can be written, and the theorems
below show the code never produces it. -/
inductive ExtractError where
  | ffmpegError
  | emptyResult
deriving Repr, DecidableEq

/-- JavaScript `String.prototype.padStart`: left-pad `s` with copies of `c`
up to total length `n`. -/
def padStart (s : String) (n : ℕ) (c : Char) : String :=
  if n ≤ s.length then s else String.mk (List.replicate (n - s.length) c) ++ s

/-- JavaScript `String.prototype.endsWith`, computed on the underlying
character list so that concrete instances evaluate. -/
def strEndsWith (s suffix : String) : Bool :=
  suffix.data.isSuffixOf s.data

/-- Lexicographic comparison of character lists: the default comparator of
JavaScript `Array.prototype.sort`, which compares strings by code unit. -/
def charListLe : List Char → List Char → Bool
  | [], _ => true
  | _ :: _, [] => false
  | a :: as, b :: bs => if a < b then true else if b < a then false else charListLe as bs

/-- String comparison used by the filename sort. -/
def strLe (a b : String) : Bool :=
  charListLe a.data b.data

/-- The directory listing step of `extractFrames`:
`readdirSync(dir).filter(f => f.endsWith('.png')).sort()`.  JavaScript
`sort()` on strings is lexicographic; `List.mergeSort` is a stable sort, as
required to model `Array.prototype.sort` faithfully. -/
def sortedPngs (files : List String) : List String :=
  (files.filter (fun f => strEndsWith f ".png")).mergeSort strLe

/-- The frame-record construction loop of `extractFrames`: for each
`[index, filename]` of the sorted listing, build a `FrameData` with
`id = videoId + "_frame_" + String(index+1).padStart(4,'0')` and
`timestamp = index * interval`. -/
def buildFrames (videoFramesDir videoId : String) (interval : ℚ)
    (files : List String) : List FrameData :=
  files.enum.map fun p =>
    { id := videoId ++ "_frame_" ++ padStart (toString (p.1 + 1)) 4 '0'
      videoId := videoId
      timestamp := (p.1 : ℚ) * interval
      filename := p.2
      path := videoFramesDir ++ "/" ++ p.2
      features := none }

/-- `VideoService.extractFrames(videoPath, videoId, interval)`.
The ffmpeg invocation is modelled by its outcome: `none` means the process
emitted an error event (the promise rejects), `some files` means the
process completed and `files` is the listing of the per-video frames
directory afterwards. -/
def extractFrames (framesDir videoId : String) (interval : ℚ)
    (outcome : Option (List String)) : Except ExtractError (List FrameData) :=
  match outcome with
  | none => .error .ffmpegError
  | some files =>
      .ok (buildFrames (framesDir ++ "/" ++ videoId) videoId interval (sortedPngs files))

/-! ## vectorService: data model -/

/-- One entry of the `inMemoryVectors` map of `VectorService`, keyed by
frame id.  The map is modelled as an insertion-ordered association list,
matching JavaScript `Map` iteration order. -/
structure StoredEntry where
  key : String
  frame : FrameData
  features : List ℚ
deriving Repr, DecidableEq

/-- `SimilarFrame` from src/services/vectorService.ts. -/
structure SimilarFrame where
  frame : FrameData
  score : ℚ
deriving Repr, DecidableEq

/-- The only error `findSimilarFrames` can throw out of the local path:
`new Error('Reference frame not found')`. -/
inductive VSError where
  | notFound
deriving Repr, DecidableEq

/-- One point returned by the remote (Qdrant) search: id, the stored
payload fields, and the score. -/
structure RemotePoint where
  id : String
  videoId : String
  timestamp : ℚ
  filename : String
  path : String
  score : ℚ
deriving Repr, DecidableEq

/-- Oracle describing the behaviour of the configured remote backend during
one operation.  `upsertOk = false` means `qdrantClient.upsert` throws.
`retrieveRes = none` means `retrieve` throws; `some pts` is the returned
point list.  `searchRes = none` means `search` throws; `some rs` is the
ranked result list the server returned (for the query issued with
`limit + 1` and `score_threshold 0.1`). -/
structure Remote where
  upsertOk : Bool
  retrieveRes : Option (List (List ℚ))
  searchRes : Option (List RemotePoint)
deriving Repr, DecidableEq

/-! ## vectorService: cosine similarity

`Math.sqrt` is floating point and has no exact rational counterpart, so the
similarity functions are parametrised by the square-root oracle
`sq : ℚ → ℚ` used by the runtime (`Math.sqrt(0) = 0` is its only property
the theorems need).  Rational division is total with `x / 0 = 0`; the
source's floating division yields `NaN` exactly when the denominator is
`0`, and the theorems about that case state the denominator is `0`
explicitly. -/

/-- `vecA.reduce((sum, a, i) => sum + a * vecB[i], 0)`.  An out-of-range
`vecB[i]` is JavaScript `undefined`; it is modelled by the default `0`
(all uses in the pipeline have equal-length operands). -/
def dotProduct (a b : List ℚ) : ℚ :=
  (a.enum.map (fun p => p.2 * b.getD p.1 0)).sum

/-- `vec.reduce((sum, a) => sum + a * a, 0)`: the squared magnitude. -/
def sumSq (a : List ℚ) : ℚ :=
  (a.map (fun x => x * x)).sum

/-- `VectorService.cosineSimilarity`: `dot / (sqrt(sumSq a) * sqrt(sumSq b))`,
with no guard of any kind on the magnitudes. -/
def cosineSimilarity (sq : ℚ → ℚ) (a b : List ℚ) : ℚ :=
  dotProduct a b / (sq (sumSq a) * sq (sumSq b))

/-! ## vectorService: store and query -/

/-- JavaScript `Map.prototype.set`: replace in place if the key is present
(keeping its original position in iteration order), otherwise append. -/
def mapSet (m : List StoredEntry) (e : StoredEntry) : List StoredEntry :=
  if m.any (fun x => x.key = e.key) then
    m.map (fun x => if x.key = e.key then e else x)
  else m ++ [e]

/-- `VectorService.storeFrameVector(frame, features)`.  With a configured
remote client, a successful upsert leaves the local map untouched; a failed
upsert is caught and the entry is written to the local map instead.  With
no remote client the entry is written locally.  The function has no error
outcome: it never throws to the caller. -/
def storeFrameVector (remote : Option Remote) (mem : List StoredEntry)
    (frame : FrameData) (features : List ℚ) : List StoredEntry :=
  match remote with
  | some r => if r.upsertOk then mem else mapSet mem ⟨frame.id, frame, features⟩
  | none => mapSet mem ⟨frame.id, frame, features⟩

/-- The comparator of the local search,
`similarities.sort((a, b) => b.score - a.score)`: descending by score. -/
def simGe (a b : SimilarFrame) : Bool :=
  decide (b.score ≤ a.score)

/-- `Array.prototype.sort` with the descending comparator; stable, modelled
by the stable `List.mergeSort`. -/
def sortSim (l : List SimilarFrame) : List SimilarFrame :=
  l.mergeSort simGe

/-- The accumulation loop of the local search: every entry of the map other
than the reference id contributes `{frame, score}`. -/
def localSimilarities (sq : ℚ → ℚ) (mem : List StoredEntry) (frameId : String)
    (refFeatures : List ℚ) : List SimilarFrame :=
  (mem.filter (fun e => e.key ≠ frameId)).map
    (fun e => ⟨e.frame, cosineSimilarity sq refFeatures e.features⟩)

/-- The remote (`try`) block of `findSimilarFrames`.  `none` means the whole
block was abandoned to the catch clause (retrieve threw, the reference id
was absent remotely — an in-try `throw` caught by the same catch — or the
search threw) and control falls through to the in-memory search.  On
success the server results are filtered of the reference id, truncated to
`limit` and converted to `SimilarFrame`s whose frames carry no vector. -/
def remoteSearch (remote : Option Remote) (frameId : String) (limit : ℕ) :
    Option (List SimilarFrame) :=
  match remote with
  | none => none
  | some r =>
    match r.retrieveRes with
    | none => none
    | some [] => none
    | some (_ :: _) =>
      match r.searchRes with
      | none => none
      | some results =>
          some ((((results.filter (fun p => p.id ≠ frameId)).take limit).map
            (fun p => ⟨⟨p.id, p.videoId, p.timestamp, p.filename, p.path, none⟩, p.score⟩)))

/-- `VectorService.findSimilarFrames(frameId, limit)`.  The remote path is
tried first when a client is configured; any remote failure falls back to
the brute-force in-memory search, which throws `notFound` when the
reference id is absent from the local map. -/
def findSimilarFrames (sq : ℚ → ℚ) (remote : Option Remote)
    (mem : List StoredEntry) (frameId : String) (limit : ℕ) :
    Except VSError (List SimilarFrame) :=
  match remoteSearch remote frameId limit with
  | some res => .ok res
  | none =>
    match mem.find? (fun e => e.key = frameId) with
    | none => .error .notFound
    | some ref =>
        .ok ((sortSim (localSimilarities sq mem frameId ref.features)).take limit)

/-! ## vectorService: colour histogram -/

/-- The bin of one channel value: `Math.floor((v / 255) * 63)`.  For the
byte range `0 ≤ v ≤ 255` the floating evaluation agrees with the exact
value `⌊v * 63 / 255⌋`, which natural division computes. -/
def binIndex (v : ℕ) : ℕ :=
  v * 63 / 255

/-- The pixel loop `for (let i = 0; i < data.length; i += channels)` of
`computeColorHistogram`, reading `data[i]`, `data[i+1]`, `data[i+2]`.
An out-of-range read (possible only when the buffer length is not a
multiple of `channels`) is modelled by the default `0`. -/
def pixelTriples (channels : ℕ) : List ℕ → List (ℕ × ℕ × ℕ)
  | [] => []
  | v :: rest =>
      (v, rest.getD 0 0, rest.getD 1 0) :: pixelTriples channels (rest.drop (channels - 1))
termination_by l => l.length
decreasing_by
  simp only [List.length_cons, List.length_drop]
  omega

/-- `hist[bin]++` on a fixed-size counter array. -/
def bump (hist : List ℕ) (v : ℕ) : List ℕ :=
  hist.set (binIndex v) (hist.getD (binIndex v) 0 + 1)

/-- One iteration of the pixel loop: increment the red, green and blue
histograms with the respective channel values. -/
def bump3 (h : List ℕ × List ℕ × List ℕ) (p : ℕ × ℕ × ℕ) :
    List ℕ × List ℕ × List ℕ :=
  (bump h.1 p.1, bump h.2.1 p.2.1, bump h.2.2 p.2.2)

/-- `VectorService.computeColorHistogram` after the decode step.  The sharp
pipeline (`resize(256,256).raw().toBuffer(...)`) is external: its result is
the raw byte list `data` together with `info.channels`, `info.width` and
`info.height` (the resize makes the latter two `256`).  The three 64-bin
counters are filled from the pixel triples and each is normalised by
`totalPixels = info.width * info.height`; the concatenation (red, green,
blue) is returned. -/
def computeColorHistogram (channels width height : ℕ) (data : List ℕ) : List ℚ :=
  let px := pixelTriples channels data
  let hists := px.foldl bump3
    (List.replicate 64 0, List.replicate 64 0, List.replicate 64 0)
  let totalPixels : ℚ := ((width * height : ℕ) : ℚ)
  (hists.1.map (fun (c : ℕ) => (c : ℚ) / totalPixels)) ++
    (hists.2.1.map (fun (c : ℕ) => (c : ℚ) / totalPixels)) ++
    (hists.2.2.map (fun (c : ℕ) => (c : ℚ) / totalPixels))

/-! ## vectorService: processFrame and the ingestion loop -/

/-- `VectorService.processFrame(frame)`.  The decode-dependent
`computeColorHistogram(frame.path)` call is modelled by the oracle `hist`
keyed on the image path: `none` means it threw (`processFrame` rethrows,
modelled as `none`), `some features` is the computed descriptor.  On
success the vector is stored and a copy of the frame with `features` set is
returned together with the updated local map. -/
def processFrame (hist : String → Option (List ℚ)) (remote : Option Remote)
    (mem : List StoredEntry) (frame : FrameData) :
    Option (List StoredEntry × FrameData) :=
  match hist frame.path with
  | none => none
  | some features =>
      some (storeFrameVector remote mem frame features,
        { frame with features := some features })

/-- The per-frame loop of the `POST /extract-frames/:videoId` route: each
frame is processed; a `processFrame` failure is caught and the unmodified
frame is pushed instead, and the loop continues with the remaining
frames. -/
def processAllFrames (hist : String → Option (List ℚ)) (remote : Option Remote)
    (mem : List StoredEntry) : List FrameData → List StoredEntry × List FrameData
  | [] => (mem, [])
  | f :: rest =>
    match processFrame hist remote mem f with
    | none =>
        let r := processAllFrames hist remote mem rest
        (r.1, f :: r.2)
    | some (mem2, pf) =>
        let r := processAllFrames hist remote mem2 rest
        (r.1, pf :: r.2)

/-! ## Concrete fixtures used by witnesses -/

/-- A sorted five-file listing, as produced by an extraction of a
10-second video at a 2-second interval. -/
def pngFiles5 : List String :=
  ["frame_0001.png", "frame_0002.png", "frame_0003.png", "frame_0004.png",
   "frame_0005.png"]

/-- The frame list the extraction model yields on `pngFiles5`. -/
def framesEx : List FrameData :=
  buildFrames ("frames" ++ "/" ++ "vid") "vid" 2 (sortedPngs pngFiles5)

/-! ## Claim C1 -/

theorem sortedPngs_eq_of_sorted (files : List String)
    (h : (files.filter (fun f => strEndsWith f ".png")).Pairwise
      (fun a b => strLe a b = true)) :
    sortedPngs files = files.filter (fun f => strEndsWith f ".png") :=
  List.mergeSort_of_sorted h

/-- C1, counterexample: on a successful decode run that produced zero
`.png` files, `extractFrames` resolves with the empty frame list; it does
not fail, and in particular not with `EmptyResultError`. -/
theorem extractFrames_empty_counterexample :
    extractFrames "frames" "v" 1 (some []) = Except.ok [] ∧
    extractFrames "frames" "v" 1 (some []) ≠
      Except.error ExtractError.emptyResult := by
  constructor
  · simp [extractFrames, sortedPngs, buildFrames]
  · simp [extractFrames, sortedPngs, buildFrames]

/-- C1 (amended): when the external process completes successfully but the
output directory holds zero files with the expected `.png` extension,
`extractFrames` returns `ok []` — an empty frame list — rather than
failing with `EmptyResultError`. -/
theorem extractFrames_empty_spec (framesDir videoId : String) (interval : ℚ)
    (files : List String)
    (h : files.filter (fun f => strEndsWith f ".png") = []) :
    extractFrames framesDir videoId interval (some files) = Except.ok [] := by
  simp [extractFrames, sortedPngs, h, buildFrames]

/-- C1 witness: a directory listing with no `.png` entry. -/
theorem extractFrames_empty_spec_witness :
    (["clip.txt"].filter (fun f => strEndsWith f ".png") = []) ∧
    extractFrames "frames" "v" 1 (some ["clip.txt"]) = Except.ok [] :=
  ⟨by decide, extractFrames_empty_spec "frames" "v" 1 ["clip.txt"] (by decide)⟩

/-! ## Claim C3 -/

/-- C3: in every successful extraction, the frame at 0-based position `i`
of the sorted file list carries `timestamp = i * interval` and
`id = videoId ++ "_frame_" ++ (i+1)` zero-padded to 4 digits. -/
theorem extractFrames_index_spec (framesDir videoId : String) (interval : ℚ)
    (files : List String) (frames : List FrameData)
    (hok : extractFrames framesDir videoId interval (some files) = .ok frames)
    (i : ℕ) (hi : i < frames.length) :
    (frames.get ⟨i, hi⟩).timestamp = (i : ℚ) * interval ∧
    (frames.get ⟨i, hi⟩).id =
      videoId ++ "_frame_" ++ padStart (toString (i + 1)) 4 '0' := by
  have hfr : frames =
      buildFrames (framesDir ++ "/" ++ videoId) videoId interval
        (sortedPngs files) := by
    simpa [extractFrames] using hok.symm
  subst hfr
  have hi2 : i < (sortedPngs files).enum.length := by
    simpa [buildFrames] using hi
  simp [buildFrames, List.get_eq_getElem, List.getElem_map, List.getElem_enum]

/-- C3 witness: five `.png` files at `interval = 2` give timestamps
`[0, 2, 4, 6, 8]` and ids `vid_frame_0001` … `vid_frame_0005`; the indexed
characterisation is checked at `i = 4`. -/
theorem extractFrames_index_spec_witness :
    extractFrames "frames" "vid" 2 (some pngFiles5) = Except.ok framesEx ∧
    framesEx.map FrameData.timestamp = [0, 2, 4, 6, 8] ∧
    framesEx.map FrameData.id =
      ["vid_frame_0001", "vid_frame_0002", "vid_frame_0003", "vid_frame_0004",
       "vid_frame_0005"] ∧
    (framesEx.get? 4).map FrameData.timestamp = some ((4 : ℚ) * 2) ∧
    (framesEx.get? 4).map FrameData.id =
      some ("vid" ++ "_frame_" ++ padStart (toString (4 + 1)) 4 '0') := by
  have hs : sortedPngs pngFiles5 = pngFiles5 := by
    rw [sortedPngs_eq_of_sorted pngFiles5 (by decide)]
    decide
  have hok : extractFrames "frames" "vid" 2 (some pngFiles5) =
      Except.ok framesEx := rfl
  have h4 : 4 < framesEx.length := by
    unfold framesEx
    rw [hs]
    decide
  obtain ⟨ht, hid⟩ :=
    extractFrames_index_spec "frames" "vid" 2 pngFiles5 framesEx hok 4 h4
  have hget : framesEx.get? 4 = some (framesEx.get ⟨4, h4⟩) :=
    List.get?_eq_get h4
  refine ⟨hok, ?_, ?_, ?_, ?_⟩
  · unfold framesEx
    rw [hs]
    simp [buildFrames, pngFiles5, List.enum]
    norm_num
  · unfold framesEx
    rw [hs]
    decide
  · rw [hget, Option.map_some']
    exact congrArg some ht
  · rw [hget, Option.map_some']
    exact congrArg some hid

/-! ## Claim C9 -/

/-- C9: the ingestion loop of the extract-frames route never drops or
aborts on a frame.  Its output is exactly the input list, where a frame
whose descriptor computation failed is passed through unchanged (its
feature vector stays absent) and a frame whose descriptor succeeded gains
`features`; each frame's outcome is independent of the others, so a
failure leaves the remaining frames unaffected.  Only a failure of the
extraction step itself (which happens before this loop) aborts the batch. -/
theorem processAllFrames_spec (hist : String → Option (List ℚ))
    (remote : Option Remote) (mem : List StoredEntry)
    (frames : List FrameData) :
    (processAllFrames hist remote mem frames).2 =
      frames.map (fun f =>
        match hist f.path with
        | none => f
        | some feats => { f with features := some feats }) ∧
    (processAllFrames hist remote mem frames).2.length = frames.length := by
  have key : ∀ (m : List StoredEntry) (fs : List FrameData),
      (processAllFrames hist remote m fs).2 =
        fs.map (fun f =>
          match hist f.path with
          | none => f
          | some feats => { f with features := some feats }) := by
    intro m fs
    induction fs generalizing m with
    | nil => rfl
    | cons f rest ih =>
      cases hf : hist f.path with
      | none => simp [processAllFrames, processFrame, hf, ih]
      | some feats => simp [processAllFrames, processFrame, hf, ih]
  exact ⟨key mem frames, by rw [key mem frames, List.length_map]⟩

/-! ## Claim C10 -/

/-- C10: on success, `processFrame` returns a copy of the input frame in
which only `features` is set (to the computed descriptor); `id`, `videoId`,
`timestamp`, `filename` and `path` are those of the input.  The input
record itself is passed by value in this pure model, matching the source's
construction of a fresh object by spread. -/
theorem processFrame_spec (hist : String → Option (List ℚ))
    (remote : Option Remote) (mem : List StoredEntry) (frame : FrameData)
    (feats : List ℚ) (h : hist frame.path = some feats) :
    processFrame hist remote mem frame =
      some (storeFrameVector remote mem frame feats,
        { frame with features := some feats }) ∧
    ({ frame with features := some feats } : FrameData).id = frame.id ∧
    ({ frame with features := some feats } : FrameData).videoId = frame.videoId ∧
    ({ frame with features := some feats } : FrameData).timestamp = frame.timestamp ∧
    ({ frame with features := some feats } : FrameData).filename = frame.filename ∧
    ({ frame with features := some feats } : FrameData).path = frame.path ∧
    ({ frame with features := some feats } : FrameData).features = some feats := by
  refine ⟨?_, rfl, rfl, rfl, rfl, rfl, rfl⟩
  simp [processFrame, h]

/-- Fixture frames for the vector-store witnesses. -/
def frA : FrameData :=
  { id := "a", videoId := "v", timestamp := 0, filename := "a.png",
    path := "frames/v/a.png" }

def frB : FrameData :=
  { id := "b", videoId := "v", timestamp := 1, filename := "b.png",
    path := "frames/v/b.png" }

def frC : FrameData :=
  { id := "c", videoId := "v", timestamp := 2, filename := "c.png",
    path := "frames/v/c.png" }

/-- A three-entry local store fixture. -/
def memEx : List StoredEntry :=
  [⟨"a", frA, [1, 0]⟩, ⟨"b", frB, [0, 1]⟩, ⟨"c", frC, [1, 1]⟩]

/-- C10 witness. -/
theorem processFrame_spec_witness :
    ((fun _ => some [1, 0]) : String → Option (List ℚ)) frA.path = some [1, 0] ∧
    processFrame (fun _ => some [1, 0]) none [] frA =
      some (storeFrameVector none [] frA [1, 0],
        { frA with features := some [1, 0] }) :=
  ⟨rfl, (processFrame_spec (fun _ => some [1, 0]) none [] frA [1, 0] rfl).1⟩

/-! ## Claim C5 -/

/-- After `mapSet m e`, looking the entry's key up finds exactly `e`,
whether the key was present (entry replaced in place) or absent (entry
appended). -/
theorem mapSet_find?_self (m : List StoredEntry) (e : StoredEntry) :
    (mapSet m e).find? (fun x => x.key = e.key) = some e := by
  unfold mapSet
  by_cases h : m.any (fun x => x.key = e.key)
  · rw [if_pos h]
    induction m with
    | nil => simp at h
    | cons x xs ih =>
      by_cases hx : x.key = e.key
      · simp [hx]
      · have hxs : xs.any (fun x => x.key = e.key) := by
          simp only [List.any_cons] at h
          rcases Bool.or_eq_true_iff.mp h with h1 | h2
          · exact absurd (of_decide_eq_true h1) hx
          · exact h2
        simp only [List.map_cons, if_neg hx]
        rw [List.find?_cons_of_neg _ (by simpa using hx)]
        exact ih hxs
  · rw [if_neg h]
    rw [List.find?_append]
    have hnone : m.find? (fun x => x.key = e.key) = none := by
      rw [List.find?_eq_none]
      intro x hx
      simp only [List.any_eq_true, not_exists, not_and] at h
      simpa using h x hx
    simp [hnone]

/-- C5: with a configured remote backend whose upsert fails,
`storeFrameVector` completes without surfacing any error (it is a total
function: the remote exception is caught) and the entry lands in the local
in-memory map; a subsequent query for that frame id (the remote backend
still failing) falls back to the local map, finds the reference and
succeeds. -/
theorem storeFrameVector_fallback_spec (sq : ℚ → ℚ) (r : Remote)
    (mem : List StoredEntry) (frame : FrameData) (features : List ℚ) (k : ℕ)
    (hup : r.upsertOk = false) (hret : r.retrieveRes = none) :
    (storeFrameVector (some r) mem frame features).find?
        (fun e => e.key = frame.id) = some ⟨frame.id, frame, features⟩ ∧
    (findSimilarFrames sq (some r)
        (storeFrameVector (some r) mem frame features) frame.id k).isOk = true := by
  have hstore : storeFrameVector (some r) mem frame features =
      mapSet mem ⟨frame.id, frame, features⟩ := by
    simp [storeFrameVector, hup]
  have hfind : (storeFrameVector (some r) mem frame features).find?
      (fun e => e.key = frame.id) = some ⟨frame.id, frame, features⟩ := by
    rw [hstore]
    exact mapSet_find?_self mem ⟨frame.id, frame, features⟩
  refine ⟨hfind, ?_⟩
  simp only [findSimilarFrames, remoteSearch, hret, hfind]
  rfl

/-- C5 witness: a remote backend that always fails, an empty local map. -/
theorem storeFrameVector_fallback_spec_witness :
    (storeFrameVector (some ⟨false, none, none⟩) [] frA [1, 0]).find?
        (fun e => e.key = frA.id) = some ⟨frA.id, frA, [1, 0]⟩ ∧
    (findSimilarFrames (fun q => q) (some ⟨false, none, none⟩)
        (storeFrameVector (some ⟨false, none, none⟩) [] frA [1, 0])
        frA.id 5).isOk = true :=
  storeFrameVector_fallback_spec (fun q => q) ⟨false, none, none⟩ [] frA [1, 0] 5
    rfl rfl

/-! ## Claim C6 -/

/-- C6: when no remote backend is usable (none configured, or the
configured one fails at the retrieve step so that the query falls back to
the local map), `findSimilarFrames` fails with the not-found error exactly
when the reference id is absent from the local in-memory map. -/
theorem findSimilarFrames_notFound_iff (sq : ℚ → ℚ) (remote : Option Remote)
    (mem : List StoredEntry) (frameId : String) (k : ℕ)
    (hun : remote = none ∨ ∃ r, remote = some r ∧ r.retrieveRes = none) :
    findSimilarFrames sq remote mem frameId k = .error .notFound ↔
      mem.find? (fun e => e.key = frameId) = none := by
  have hrs : remoteSearch remote frameId k = none := by
    rcases hun with rfl | ⟨r, rfl, hr⟩
    · rfl
    · simp [remoteSearch, hr]
  rw [findSimilarFrames, hrs]
  cases hf : mem.find? (fun e => e.key = frameId) with
  | none => simp
  | some ref => simp

/-- C6 witness: no remote backend, reference id absent from the store. -/
theorem findSimilarFrames_notFound_iff_witness :
    (findSimilarFrames (fun q => q) none memEx "zzz" 3 = .error .notFound ↔
      memEx.find? (fun e => e.key = "zzz") = none) :=
  findSimilarFrames_notFound_iff (fun q => q) none memEx "zzz" 3 (Or.inl rfl)

/-! ## Claim C8 -/

/-- C8: a query with `k = 0` whose reference id is present in the active
store returns the empty list and no error: the remote path truncates its
(reference-filtered) server results to `0` entries, and the local path
takes `0` entries of the ranked similarity list. -/
theorem findSimilarFrames_k_zero_spec (sq : ℚ → ℚ) (remote : Option Remote)
    (mem : List StoredEntry) (frameId : String)
    (h : (∃ r pt pts results, remote = some r ∧
            r.retrieveRes = some (pt :: pts) ∧ r.searchRes = some results) ∨
         (remoteSearch remote frameId 0 = none ∧
            ∃ e, mem.find? (fun x => x.key = frameId) = some e)) :
    findSimilarFrames sq remote mem frameId 0 = .ok [] := by
  rcases h with ⟨r, pt, pts, results, rfl, hret, hsearch⟩ | ⟨hrs, e, hfind⟩
  · simp [findSimilarFrames, remoteSearch, hret, hsearch]
  · rw [findSimilarFrames, hrs, hfind]
    simp

/-- C8 witness: no remote backend, reference id "a" present, `k = 0`. -/
theorem findSimilarFrames_k_zero_spec_witness :
    findSimilarFrames (fun q => q) none memEx "a" 0 = .ok [] :=
  findSimilarFrames_k_zero_spec (fun q => q) none memEx "a"
    (Or.inr ⟨rfl, ⟨⟨"a", frA, [1, 0]⟩, rfl⟩⟩)

/-! ## Claim C7 -/

/-- A zero sum of squares forces every component to vanish. -/
theorem sumSq_eq_zero_forall (a : List ℚ) (h : sumSq a = 0) :
    ∀ x ∈ a, x = 0 := by
  induction a with
  | nil => simp
  | cons y ys ih =>
    have hy2 : 0 ≤ y * y := mul_self_nonneg y
    have hs : 0 ≤ (ys.map (fun x => x * x)).sum := by
      apply List.sum_nonneg
      intro x hx
      rcases List.mem_map.mp hx with ⟨z, _, rfl⟩
      exact mul_self_nonneg z
    have hsum : y * y + (ys.map (fun x => x * x)).sum = 0 := by
      simpa [sumSq] using h
    have hy : y * y = 0 := by linarith
    have hrest : sumSq ys = 0 := by
      simp only [sumSq]
      linarith
    intro x hx
    rcases List.mem_cons.mp hx with rfl | hmem
    · exact mul_self_eq_zero.mp hy
    · exact ih hrest x hmem

/-- `getD` of an everywhere-zero list is `0` for any index. -/
theorem getD_zero_of_all_zero (b : List ℚ) (hb : ∀ x ∈ b, x = 0) (i : ℕ) :
    b.getD i 0 = 0 := by
  rw [List.getD_eq_getElem?_getD]
  cases hx : b[i]? with
  | none => rfl
  | some x =>
    simp only [Option.getD_some]
    exact hb x (List.getElem?_mem hx)

/-- The dot product vanishes as soon as either operand is all-zero. -/
theorem dotProduct_eq_zero_of_zero (a b : List ℚ)
    (h : (∀ x ∈ a, x = 0) ∨ (∀ x ∈ b, x = 0)) :
    dotProduct a b = 0 := by
  apply List.sum_eq_zero
  intro t ht
  rcases List.mem_map.mp ht with ⟨p, hp, rfl⟩
  rcases h with ha | hb
  · have hpa : p.2 ∈ a := by
      have : p.2 ∈ a.enum.map Prod.snd := List.mem_map_of_mem Prod.snd hp
      simpa [List.enum_map_snd] using this
    rw [ha p.2 hpa, zero_mul]
  · rw [getD_zero_of_all_zero b hb p.1, mul_zero]

/-- C7, counterexample: on two zero-magnitude 192-dimensional vectors
`cosineSimilarity` returns a plain number — it has no error outcome at all
and raises nothing.  In JavaScript the division `0 / 0` evaluates to `NaN`
and that `NaN` is returned to the caller; the total rational division of
the model makes the same expression `0`. -/
theorem cosineSimilarity_zero_counterexample :
    cosineSimilarity (fun q => q) (List.replicate 192 0)
      (List.replicate 192 0) = 0 := by
  unfold cosineSimilarity
  rw [dotProduct_eq_zero_of_zero _ _ (Or.inl (fun x hx => List.eq_of_mem_replicate hx))]
  exact zero_div _

/-- C7 (amended): the cosine-similarity computation contains no
zero-magnitude guard and no `DegenerateVectorError`: when either operand
has zero magnitude it performs the division anyway.  The denominator
`sqrt(sumSq a) * sqrt(sumSq b)` is then `0`, so the JavaScript result is
`NaN` (`0 / 0`), which is returned — not raised — to the caller; the
model's total rational division renders that degenerate quotient as `0`. -/
theorem cosineSimilarity_zero_magnitude_spec (sq : ℚ → ℚ) (a b : List ℚ)
    (h : sumSq a = 0 ∨ sumSq b = 0) (hsq : sq 0 = 0) :
    sq (sumSq a) * sq (sumSq b) = 0 ∧ cosineSimilarity sq a b = 0 := by
  have hdot : dotProduct a b = 0 := by
    apply dotProduct_eq_zero_of_zero
    rcases h with ha | hb
    · exact Or.inl (sumSq_eq_zero_forall a ha)
    · exact Or.inr (sumSq_eq_zero_forall b hb)
  constructor
  · rcases h with ha | hb
    · rw [ha, hsq, zero_mul]
    · rw [hb, hsq, mul_zero]
  · unfold cosineSimilarity
    rw [hdot]
    exact zero_div _

/-- C7 witness: first operand `[0]`, a zero-magnitude vector. -/
theorem cosineSimilarity_zero_magnitude_spec_witness :
    (sumSq [(0 : ℚ)] = 0 ∨ sumSq [(1 : ℚ)] = 0) ∧
    ((fun q => q) : ℚ → ℚ) 0 = 0 ∧
    ((fun q => q) (sumSq [(0 : ℚ)]) * (fun q => q) (sumSq [(1 : ℚ)]) = 0 ∧
      cosineSimilarity (fun q => q) [(0 : ℚ)] [(1 : ℚ)] = 0) := by
  have h0 : sumSq [(0 : ℚ)] = 0 := by simp [sumSq]
  exact ⟨Or.inl h0, rfl,
    cosineSimilarity_zero_magnitude_spec (fun q => q) [0] [1] (Or.inl h0) rfl⟩

/-! ## Claim C4 -/

theorem simGe_trans : ∀ (a b c : SimilarFrame),
    simGe a b → simGe b c → simGe a c := by
  intro a b c hab hbc
  simp only [simGe, decide_eq_true_eq] at hab hbc ⊢
  exact le_trans hbc hab

theorem simGe_total : ∀ (a b : SimilarFrame), simGe a b || simGe b a := by
  intro a b
  simp only [simGe, Bool.or_eq_true, decide_eq_true_eq]
  exact le_total b.score a.score

/-- Dropping the unique entry carrying `frameId` from a map with nodup keys
removes exactly one element. -/
theorem length_filter_ne_key (mem : List StoredEntry) (frameId : String)
    (e0 : StoredEntry) (hnd : (mem.map (fun e => e.key)).Nodup)
    (hmem : e0 ∈ mem) (hkey : e0.key = frameId) :
    (mem.filter (fun e => e.key ≠ frameId)).length + 1 = mem.length := by
  induction mem with
  | nil => cases hmem
  | cons x xs ih =>
    rw [List.map_cons, List.nodup_cons] at hnd
    rcases List.mem_cons.mp hmem with rfl | hmem2
    · have hfx : xs.filter (fun e => e.key ≠ frameId) = xs := by
        rw [List.filter_eq_self]
        intro a ha
        simp only [ne_eq, decide_not, Bool.not_eq_eq_eq_not, Bool.not_true,
          decide_eq_false_iff_not]
        intro hkey2
        exact hnd.1 (hkey ▸ hkey2 ▸ List.mem_map_of_mem (fun e => e.key) ha)
      rw [List.filter_cons, if_neg (by simp [hkey]), hfx, List.length_cons]
    · have hxk : ¬(x.key = frameId) := by
        intro hc
        exact hnd.1 (hc ▸ hkey ▸ List.mem_map_of_mem (fun e => e.key) hmem2)
      rw [List.filter_cons, if_pos (by simpa using hxk), List.length_cons,
        List.length_cons]
      have := ih hnd.2 hmem2
      omega

/-- C4: a local-backend similarity query whose reference id is stored (the
keys of the map being distinct, and keyed consistently by frame id, as
every write guarantees) with `k ≤ n - 1` returns exactly `k` results,
ranked by descending score, never containing the reference frame's own id.
The ranking is produced by `List.mergeSort`, a stable sort, so tied scores
keep their original storage order, as the claim's parenthetical states. -/
theorem findSimilarFrames_local_spec (sq : ℚ → ℚ) (mem : List StoredEntry)
    (frameId : String) (k : ℕ) (ref : StoredEntry)
    (hnd : (mem.map (fun e => e.key)).Nodup)
    (href : mem.find? (fun e => e.key = frameId) = some ref)
    (hids : ∀ e ∈ mem, e.frame.id = e.key)
    (hk : k ≤ mem.length - 1) :
    findSimilarFrames sq none mem frameId k =
      .ok ((sortSim (localSimilarities sq mem frameId ref.features)).take k) ∧
    ((sortSim (localSimilarities sq mem frameId ref.features)).take k).length = k ∧
    ((sortSim (localSimilarities sq mem frameId ref.features)).take k).Pairwise
      (fun a b => b.score ≤ a.score) ∧
    ∀ x ∈ (sortSim (localSimilarities sq mem frameId ref.features)).take k,
      x.frame.id ≠ frameId := by
  have hrefmem : ref ∈ mem := List.mem_of_find?_eq_some href
  have hrefkey : ref.key = frameId := by
    have := List.find?_some href
    simpa using this
  refine ⟨?_, ?_, ?_, ?_⟩
  · simp [findSimilarFrames, remoteSearch, href]
  · have hflen := length_filter_ne_key mem frameId ref hnd hrefmem hrefkey
    have hlen : (sortSim (localSimilarities sq mem frameId ref.features)).length =
        (mem.filter (fun e => e.key ≠ frameId)).length := by
      simp [sortSim, localSimilarities]
    rw [List.length_take, hlen]
    omega
  · have hp := List.sorted_mergeSort simGe_trans simGe_total
      (localSimilarities sq mem frameId ref.features)
    have hp2 : (sortSim (localSimilarities sq mem frameId ref.features)).Pairwise
        (fun a b => b.score ≤ a.score) := by
      apply hp.imp
      intro a b hab
      simpa [simGe] using hab
    exact hp2.sublist (List.take_sublist _ _)
  · intro x hx
    have hx2 : x ∈ sortSim (localSimilarities sq mem frameId ref.features) :=
      (List.take_sublist _ _).subset hx
    have hx3 : x ∈ localSimilarities sq mem frameId ref.features := by
      simpa [sortSim, List.mem_mergeSort] using hx2
    rcases List.mem_map.mp hx3 with ⟨e, he, rfl⟩
    have he2 := List.mem_filter.mp he
    have hne : ¬(e.key = frameId) := by simpa using he2.2
    intro hc
    exact hne (by rw [← hids e he2.1]; exact hc)

/-- C4 witness: a three-entry store, reference id "a", `k = 1`. -/
theorem findSimilarFrames_local_spec_witness :
    findSimilarFrames (fun q => q) none memEx "a" 1 =
      .ok ((sortSim (localSimilarities (fun q => q) memEx "a" [1, 0])).take 1) ∧
    ((sortSim (localSimilarities (fun q => q) memEx "a" [1, 0])).take 1).length = 1 ∧
    ((sortSim (localSimilarities (fun q => q) memEx "a" [1, 0])).take 1).Pairwise
      (fun a b => b.score ≤ a.score) ∧
    ∀ x ∈ (sortSim (localSimilarities (fun q => q) memEx "a" [1, 0])).take 1,
      x.frame.id ≠ "a" :=
  findSimilarFrames_local_spec (fun q => q) memEx "a" 1 ⟨"a", frA, [1, 0]⟩
    (by decide) rfl (by decide) (by decide)

/-! ## Claim C2 -/

theorem binIndex_lt_64 (v : ℕ) (hv : v ≤ 255) : binIndex v < 64 := by
  unfold binIndex
  calc v * 63 / 255 ≤ 255 * 63 / 255 :=
        Nat.div_le_div_right (Nat.mul_le_mul_right 63 hv)
    _ < 64 := by norm_num

theorem length_bump (hist : List ℕ) (v : ℕ) :
    (bump hist v).length = hist.length := by
  simp [bump]

theorem sum_set_getD_add_one (hist : List ℕ) (i : ℕ) (h : i < hist.length) :
    (hist.set i (hist.getD i 0 + 1)).sum = hist.sum + 1 := by
  induction hist generalizing i with
  | nil => simp at h
  | cons x xs ih =>
    cases i with
    | zero => simp [List.set]; omega
    | succ n =>
      have hn : n < xs.length := by simpa using h
      simp only [List.set, List.getD_cons_succ, List.sum_cons, ih n hn]
      omega

theorem sum_bump (hist : List ℕ) (v : ℕ) (h : binIndex v < hist.length) :
    (bump hist v).sum = hist.sum + 1 := by
  unfold bump
  exact sum_set_getD_add_one hist (binIndex v) h

theorem length_foldl_bump (vals : List ℕ) (hist : List ℕ) :
    (vals.foldl bump hist).length = hist.length := by
  induction vals generalizing hist with
  | nil => rfl
  | cons v vs ih => rw [List.foldl_cons, ih, length_bump]

theorem sum_foldl_bump (vals : List ℕ) (hist : List ℕ)
    (h : ∀ v ∈ vals, binIndex v < hist.length) :
    (vals.foldl bump hist).sum = hist.sum + vals.length := by
  induction vals generalizing hist with
  | nil => simp
  | cons v vs ih =>
    rw [List.foldl_cons,
      ih (bump hist v) (fun x hx => by
        rw [length_bump]
        exact h x (List.mem_cons_of_mem v hx)),
      sum_bump hist v (h v (List.mem_cons_self v vs)), List.length_cons]
    omega

theorem foldl_bump3_eq (px : List (ℕ × ℕ × ℕ)) (h1 h2 h3 : List ℕ) :
    px.foldl bump3 (h1, h2, h3) =
      ((px.map (fun p => p.1)).foldl bump h1,
       (px.map (fun p => p.2.1)).foldl bump h2,
       (px.map (fun p => p.2.2)).foldl bump h3) := by
  induction px generalizing h1 h2 h3 with
  | nil => rfl
  | cons p ps ih => simp [List.foldl_cons, bump3, ih]

theorem pixelTriples_length (c : ℕ) (hc : 1 ≤ c) :
    ∀ (n : ℕ) (data : List ℕ), data.length = n * c →
      (pixelTriples c data).length = n := by
  intro n
  induction n with
  | zero =>
    intro data h
    have hd : data = [] := List.length_eq_zero.mp (by simpa using h)
    subst hd
    rw [pixelTriples]
    rfl
  | succ n ih =>
    intro data h
    cases data with
    | nil =>
      exfalso
      rw [Nat.succ_mul] at h
      simp only [List.length_nil] at h
      omega
    | cons v rest =>
      rw [pixelTriples, List.length_cons, ih (rest.drop (c - 1)) ?_]
      rw [List.length_drop]
      rw [Nat.succ_mul] at h
      simp only [List.length_cons] at h
      omega

theorem natGetD_le_255 (l : List ℕ) (h : ∀ v ∈ l, v ≤ 255) (i : ℕ) :
    l.getD i 0 ≤ 255 := by
  rw [List.getD_eq_getElem?_getD]
  cases hx : l[i]? with
  | none => simp
  | some x =>
    simp only [Option.getD_some]
    exact h x (List.getElem?_mem hx)

theorem pixelTriples_bound (c : ℕ) (data : List ℕ)
    (h : ∀ v ∈ data, v ≤ 255) :
    ∀ p ∈ pixelTriples c data, p.1 ≤ 255 ∧ p.2.1 ≤ 255 ∧ p.2.2 ≤ 255 := by
  match data with
  | [] =>
    intro p hp
    rw [pixelTriples] at hp
    cases hp
  | v :: rest =>
    intro p hp
    rw [pixelTriples] at hp
    have hrest : ∀ x ∈ rest, x ≤ 255 :=
      fun x hx => h x (List.mem_cons_of_mem v hx)
    rcases List.mem_cons.mp hp with rfl | h2
    · exact ⟨h v (List.mem_cons_self v rest),
        natGetD_le_255 rest hrest 0, natGetD_le_255 rest hrest 1⟩
    · exact pixelTriples_bound c (rest.drop (c - 1))
        (fun x hx => hrest x ((List.drop_sublist (c - 1) rest).subset hx)) p h2
termination_by data.length
decreasing_by
  simp only [List.length_cons, List.length_drop]
  omega

theorem sum_map_div (l : List ℕ) (T : ℚ) :
    (l.map (fun (c : ℕ) => (c : ℚ) / T)).sum = ((l.sum : ℕ) : ℚ) / T := by
  induction l with
  | nil => simp
  | cons x xs ih =>
    rw [List.map_cons, List.sum_cons, ih, List.sum_cons]
    push_cast
    rw [div_add_div_same]

/-- C2: for every successfully decoded image buffer (its length is
`width * height * channels` with at least the three colour channels, a
positive pixel count, and byte-range samples), the descriptor produced by
`computeColorHistogram` has exactly 192 values, and each of its three
64-value segments — the red, green and blue histograms — sums to exactly
`1` in rational arithmetic, hence within any floating tolerance such as
`1e-6`. -/
theorem computeColorHistogram_spec (channels width height : ℕ)
    (data : List ℕ) (hc : 3 ≤ channels) (hwh : 0 < width * height)
    (hlen : data.length = width * height * channels)
    (hbytes : ∀ v ∈ data, v ≤ 255) :
    (computeColorHistogram channels width height data).length = 192 ∧
    ((computeColorHistogram channels width height data).take 64).sum = 1 ∧
    (((computeColorHistogram channels width height data).drop 64).take 64).sum = 1 ∧
    ((computeColorHistogram channels width height data).drop 128).sum = 1 := by
  have hpxlen : (pixelTriples channels data).length = width * height :=
    pixelTriples_length channels (by omega) (width * height) data hlen
  have hbound := pixelTriples_bound channels data hbytes
  have hbin : ∀ f : ℕ × ℕ × ℕ → ℕ, (∀ p : ℕ × ℕ × ℕ,
        p.1 ≤ 255 ∧ p.2.1 ≤ 255 ∧ p.2.2 ≤ 255 → f p ≤ 255) →
      ∀ v ∈ (pixelTriples channels data).map f,
        binIndex v < (List.replicate 64 (0 : ℕ)).length := by
    intro f hf v hv
    rcases List.mem_map.mp hv with ⟨p, hp, rfl⟩
    rw [List.length_replicate]
    exact binIndex_lt_64 (f p) (hf p (hbound p hp))
  have hcnt : ∀ f : ℕ × ℕ × ℕ → ℕ, (∀ p : ℕ × ℕ × ℕ,
        p.1 ≤ 255 ∧ p.2.1 ≤ 255 ∧ p.2.2 ≤ 255 → f p ≤ 255) →
      (((pixelTriples channels data).map f).foldl bump
          (List.replicate 64 0)).sum = width * height ∧
      (((pixelTriples channels data).map f).foldl bump
          (List.replicate 64 0)).length = 64 := by
    intro f hf
    constructor
    · rw [sum_foldl_bump _ _ (hbin f hf), List.sum_replicate, smul_zero,
        List.length_map, hpxlen]
      omega
    · rw [length_foldl_bump, List.length_replicate]
  have hsegsum : ∀ f : ℕ × ℕ × ℕ → ℕ, (∀ p : ℕ × ℕ × ℕ,
        p.1 ≤ 255 ∧ p.2.1 ≤ 255 ∧ p.2.2 ≤ 255 → f p ≤ 255) →
      ((((pixelTriples channels data).map f).foldl bump
          (List.replicate 64 0)).map
          (fun (c : ℕ) => (c : ℚ) / ((width * height : ℕ) : ℚ))).sum = 1 := by
    intro f hf
    rw [sum_map_div, (hcnt f hf).1]
    exact div_self (Nat.cast_ne_zero.mpr (by omega))
  have hr := hcnt (fun p => p.1) (fun p hp => hp.1)
  have hg := hcnt (fun p => p.2.1) (fun p hp => hp.2.1)
  have hb := hcnt (fun p => p.2.2) (fun p hp => hp.2.2)
  have hrs := hsegsum (fun p => p.1) (fun p hp => hp.1)
  have hgs := hsegsum (fun p => p.2.1) (fun p hp => hp.2.1)
  have hbs := hsegsum (fun p => p.2.2) (fun p hp => hp.2.2)
  have hexpand : computeColorHistogram channels width height data =
      ((((pixelTriples channels data).map (fun p => p.1)).foldl bump
          (List.replicate 64 0)).map
          (fun (c : ℕ) => (c : ℚ) / ((width * height : ℕ) : ℚ))) ++
      ((((pixelTriples channels data).map (fun p => p.2.1)).foldl bump
          (List.replicate 64 0)).map
          (fun (c : ℕ) => (c : ℚ) / ((width * height : ℕ) : ℚ))) ++
      ((((pixelTriples channels data).map (fun p => p.2.2)).foldl bump
          (List.replicate 64 0)).map
          (fun (c : ℕ) => (c : ℚ) / ((width * height : ℕ) : ℚ))) := by
    rw [computeColorHistogram, foldl_bump3_eq]
  have hlenR : ((((pixelTriples channels data).map (fun p => p.1)).foldl bump
      (List.replicate 64 0)).map
      (fun (c : ℕ) => (c : ℚ) / ((width * height : ℕ) : ℚ))).length = 64 := by
    rw [List.length_map, hr.2]
  have hlenG : ((((pixelTriples channels data).map (fun p => p.2.1)).foldl bump
      (List.replicate 64 0)).map
      (fun (c : ℕ) => (c : ℚ) / ((width * height : ℕ) : ℚ))).length = 64 := by
    rw [List.length_map, hg.2]
  have hlenB : ((((pixelTriples channels data).map (fun p => p.2.2)).foldl bump
      (List.replicate 64 0)).map
      (fun (c : ℕ) => (c : ℚ) / ((width * height : ℕ) : ℚ))).length = 64 := by
    rw [List.length_map, hb.2]
  refine ⟨?_, ?_, ?_, ?_⟩
  · rw [hexpand, List.length_append, List.length_append, hlenR, hlenG, hlenB]
  · rw [hexpand, List.append_assoc,
      List.take_left' hlenR, hrs]
  · rw [hexpand, List.append_assoc,
      List.drop_left' hlenR, List.take_left' hlenG, hgs]
  · rw [hexpand,
      List.drop_left' (by rw [List.length_append, hlenR, hlenG]), hbs]

/-- C2 witness: a one-pixel (smallest positive) three-channel buffer. -/
theorem computeColorHistogram_spec_witness :
    ((3 : ℕ) ≤ 3 ∧ 0 < 1 * 1 ∧
      ([10, 128, 255] : List ℕ).length = 1 * 1 * 3 ∧
      ∀ v ∈ ([10, 128, 255] : List ℕ), v ≤ 255) ∧
    ((computeColorHistogram 3 1 1 [10, 128, 255]).length = 192 ∧
      ((computeColorHistogram 3 1 1 [10, 128, 255]).take 64).sum = 1 ∧
      (((computeColorHistogram 3 1 1 [10, 128, 255]).drop 64).take 64).sum = 1 ∧
      ((computeColorHistogram 3 1 1 [10, 128, 255]).drop 128).sum = 1) :=
  ⟨⟨by decide, by decide, by decide, by decide⟩,
    computeColorHistogram_spec 3 1 1 [10, 128, 255]
      (by decide) (by decide) (by decide) (by decide)⟩

end FrameBackend
